import Mathlib

/-!
Verification of the chimeric-peptide simulation core
(`simulate_chimeric_peptides.py`): Python slice semantics, reading-frame
translation via the standard genetic code, per-shift window extraction,
validity filtering, five-shift orchestration with short-circuit, and the
per-file transcript cap.
-/

set_option maxRecDepth 8000

namespace ChimSource

/-- Python slice-index normalisation for a sequence of length `n`: a negative
index counts from the end (clamped below at 0), a non-negative index is
clamped above at `n`. -/
def pyIndex (n : Nat) (i : Int) : Nat :=
  if i < 0 then ((n : Int) + i).toNat else min i.toNat n

/-- Python slice `s[i:j]` (step 1) on a list of characters. -/
def pySlice (s : List Char) (i j : Int) : List Char :=
  (s.take (pyIndex s.length j)).drop (pyIndex s.length i)

/-- Source: `aa_each_side = 6` in `get_chimeric_peptide`. -/
def aa_each_side : Nat := 6

/-- Source: `nt_each_side = aa_each_side * 3`. -/
def nt_each_side : Nat := aa_each_side * 3

/-- Standard genetic code (DNA codons, NCBI table 1), stop codons map to the
stop symbol; any codon outside the 4-letter alphabet maps to the unknown
residue marker. Models the codon lookup performed by the translation step. -/
def codonChar : Char → Char → Char → Char
  | 'T', 'T', 'T' => 'F'
  | 'T', 'T', 'C' => 'F'
  | 'T', 'T', 'A' => 'L'
  | 'T', 'T', 'G' => 'L'
  | 'C', 'T', 'T' => 'L'
  | 'C', 'T', 'C' => 'L'
  | 'C', 'T', 'A' => 'L'
  | 'C', 'T', 'G' => 'L'
  | 'A', 'T', 'T' => 'I'
  | 'A', 'T', 'C' => 'I'
  | 'A', 'T', 'A' => 'I'
  | 'A', 'T', 'G' => 'M'
  | 'G', 'T', 'T' => 'V'
  | 'G', 'T', 'C' => 'V'
  | 'G', 'T', 'A' => 'V'
  | 'G', 'T', 'G' => 'V'
  | 'T', 'C', 'T' => 'S'
  | 'T', 'C', 'C' => 'S'
  | 'T', 'C', 'A' => 'S'
  | 'T', 'C', 'G' => 'S'
  | 'C', 'C', 'T' => 'P'
  | 'C', 'C', 'C' => 'P'
  | 'C', 'C', 'A' => 'P'
  | 'C', 'C', 'G' => 'P'
  | 'A', 'C', 'T' => 'T'
  | 'A', 'C', 'C' => 'T'
  | 'A', 'C', 'A' => 'T'
  | 'A', 'C', 'G' => 'T'
  | 'G', 'C', 'T' => 'A'
  | 'G', 'C', 'C' => 'A'
  | 'G', 'C', 'A' => 'A'
  | 'G', 'C', 'G' => 'A'
  | 'T', 'A', 'T' => 'Y'
  | 'T', 'A', 'C' => 'Y'
  | 'T', 'A', 'A' => '*'
  | 'T', 'A', 'G' => '*'
  | 'C', 'A', 'T' => 'H'
  | 'C', 'A', 'C' => 'H'
  | 'C', 'A', 'A' => 'Q'
  | 'C', 'A', 'G' => 'Q'
  | 'A', 'A', 'T' => 'N'
  | 'A', 'A', 'C' => 'N'
  | 'A', 'A', 'A' => 'K'
  | 'A', 'A', 'G' => 'K'
  | 'G', 'A', 'T' => 'D'
  | 'G', 'A', 'C' => 'D'
  | 'G', 'A', 'A' => 'E'
  | 'G', 'A', 'G' => 'E'
  | 'T', 'G', 'T' => 'C'
  | 'T', 'G', 'C' => 'C'
  | 'T', 'G', 'A' => '*'
  | 'T', 'G', 'G' => 'W'
  | 'C', 'G', 'T' => 'R'
  | 'C', 'G', 'C' => 'R'
  | 'C', 'G', 'A' => 'R'
  | 'C', 'G', 'G' => 'R'
  | 'A', 'G', 'T' => 'S'
  | 'A', 'G', 'C' => 'S'
  | 'A', 'G', 'A' => 'R'
  | 'A', 'G', 'G' => 'R'
  | 'G', 'G', 'T' => 'G'
  | 'G', 'G', 'C' => 'G'
  | 'G', 'G', 'A' => 'G'
  | 'G', 'G', 'G' => 'G'
  | _, _, _ => 'X'

/-- Translation of a nucleotide window: complete codons left-to-right, any
trailing 1-2 leftover bases dropped, no termination at a stop codon.
Models `str(Seq(window).translate(to_stop=False))` of the source. -/
def translate : List Char → List Char
  | a :: b :: c :: rest => codonChar a b c :: translate rest
  | _ => []

/-- The 4-letter DNA alphabet. -/
def dnaBases : List Char := ['A', 'C', 'G', 'T']

/-- Source: `left_seq = seq[left_start:mid_nt]` with
`left_start = max(mid_nt - nt_each_side, 0)`. -/
def left_window (seq : List Char) (mid_nt : Nat) : List Char :=
  pySlice seq (max ((mid_nt : Int) - nt_each_side) 0) mid_nt

/-- Source: `right_seq = seq[right_start:right_start + nt_each_side]` with
`right_start = mid_nt + shift`. -/
def right_window (seq : List Char) (mid_nt : Nat) (shift : Int) : List Char :=
  pySlice seq ((mid_nt : Int) + shift) ((mid_nt : Int) + shift + nt_each_side)

/-- Source: `peptide = left_aa + right_aa`, the concatenated translations of
the two windows, before validation and truncation. -/
def chimeric_concat (seq : List Char) (mid_nt : Nat) (shift : Int) : List Char :=
  translate (left_window seq mid_nt) ++ translate (right_window seq mid_nt shift)

/-- Source: `get_chimeric_peptide(seq, mid_nt, shift)` — reject on length
below `2 * aa_each_side` or on a stop symbol anywhere, otherwise return the
concatenation truncated to `2 * aa_each_side` characters. -/
def get_chimeric_peptide (seq : List Char) (mid_nt : Nat) (shift : Int) :
    Option (List Char) :=
  if (chimeric_concat seq mid_nt shift).length < aa_each_side * 2 then none
  else if '*' ∈ chimeric_concat seq mid_nt shift then none
  else some ((chimeric_concat seq mid_nt shift).take (aa_each_side * 2))

/-- Source: the `shifts` dict, in declaration (= iteration) order. -/
def shifts : List (String × Int) :=
  [("0_frame", 0), ("+1_frame", 1), ("+2_frame", 2), ("-1_frame", -1), ("-2_frame", -2)]

/-- The per-transcript loop over `shifts.items()`: accumulate
`(label, peptide)` pairs, break with `all_valid = False` as soon as a shift
yields a falsy peptide (None or empty string). -/
def collect_shifts (seq : List Char) (mid_nt : Nat) :
    List (String × Int) → List (String × List Char) →
    List (String × List Char) × Bool
  | [], acc => (acc, true)
  | (label, shift) :: rest, acc =>
    match get_chimeric_peptide seq mid_nt shift with
    | some p =>
      if p.isEmpty then (acc, false)
      else collect_shifts seq mid_nt rest (acc ++ [(label, p)])
    | none => (acc, false)

/-- Per-transcript outcome: the five labeled peptides when every shift
succeeded (`all_valid and len(peptides_for_transcript) == 5`), otherwise
nothing. `mid_nt = len(full_seq) // 2`. -/
def translate_transcript (seq : List Char) : Option (List (String × List Char)) :=
  if ((collect_shifts seq (seq.length / 2) shifts []).2 = true) ∧
     (collect_shifts seq (seq.length / 2) shifts []).1.length = 5 then
    some (collect_shifts seq (seq.length / 2) shifts []).1
  else none

/-- Source: `out_f.write(f">{seq_record.id}_{label}\n{peptide}\n")`. -/
def render_record (id : String) (label : String) (peptide : List Char) : String :=
  ">" ++ id ++ "_" ++ label ++ "\n" ++ String.mk peptide ++ "\n"

/-- The per-file loop of `translate_chimeric_peptides`: stop when
`processed_count >= max_transcripts`, otherwise process the next record,
emitting its five rendered lines and incrementing the count on acceptance. -/
def process_records :
    List (String × List Char) → Nat → Nat → List String → Nat × List String
  | [], _, count, out => (count, out)
  | (id, seq) :: rest, maxT, count, out =>
    if count ≥ maxT then (count, out)
    else
      match translate_transcript seq with
      | some ps =>
        process_records rest maxT (count + 1)
          (out ++ ps.map (fun lp => render_record id lp.1 lp.2))
      | none => process_records rest maxT count out

/-- Source: `translate_chimeric_peptides` restricted to its core (the
records already parsed, the emitted lines collected): returns the number of
accepted transcripts and the emitted records. -/
def translate_chimeric_peptides (records : List (String × List Char))
    (max_transcripts : Nat) : Nat × List String :=
  process_records records max_transcripts 0 []

/-- Modelled from the spec: the left window as the spec words it — the
subsequence from `max(mid - ntPerSide, 0)` to `mid`. -/
def spec_left_window (seq : List Char) (mid_nt : Nat) : List Char :=
  (seq.take mid_nt).drop (mid_nt - nt_each_side)

/-- Modelled from the spec: the right window as the spec words it — the
truncation of the range `[mid + shift, mid + shift + ntPerSide)` to the
sequence bounds (out-of-range positions contribute nothing). -/
def spec_right_window (seq : List Char) (mid_nt : Nat) (shift : Int) : List Char :=
  (seq.take ((mid_nt : Int) + shift + nt_each_side).toNat).drop
    ((mid_nt : Int) + shift).toNat

/-! ### Lemmas about translation -/

theorem translate_nil : translate [] = [] := rfl

theorem translate_cons3 (a b c : Char) (t : List Char) :
    translate (a :: b :: c :: t) = codonChar a b c :: translate t := rfl

theorem translate_short (r : List Char) (h : r.length < 3) : translate r = [] := by
  match r with
  | [] => rfl
  | [a] => rfl
  | [a, b] => rfl
  | a :: b :: c :: t => exact absurd h (by simp)

theorem translate_length_aux :
    ∀ (n : Nat) (w : List Char), w.length ≤ n → (translate w).length = w.length / 3 := by
  intro n
  induction n with
  | zero =>
    intro w h
    match w with
    | [] => rfl
  | succ k ih =>
    intro w h
    match w with
    | [] => rfl
    | [a] => rw [translate_short [a] (by simp)]; simp
    | [a, b] => rw [translate_short [a, b] (by simp)]; simp
    | a :: b :: c :: t =>
      rw [translate_cons3]
      have ht : t.length ≤ k := by simp at h; omega
      simp only [List.length_cons, ih t ht]
      omega

theorem translate_length (w : List Char) : (translate w).length = w.length / 3 :=
  translate_length_aux w.length w (Nat.le_refl _)

theorem translate_append3 :
    ∀ (n : Nat) (w r : List Char), w.length ≤ n → w.length % 3 = 0 →
      translate (w ++ r) = translate w ++ translate r := by
  intro n
  induction n with
  | zero =>
    intro w r h hm
    match w with
    | [] => rfl
  | succ k ih =>
    intro w r h hm
    match w with
    | [] => rfl
    | [a] => simp at hm
    | [a, b] => simp at hm
    | a :: b :: c :: t =>
      have ht : t.length ≤ k := by simp at h; omega
      have htm : t.length % 3 = 0 := by simp at hm ⊢; omega
      simp only [List.cons_append, translate_cons3, ih t r ht htm]

/-- Translation distributes over splitting at a codon boundary. -/
theorem translate_append (w r : List Char) (hm : w.length % 3 = 0) :
    translate (w ++ r) = translate w ++ translate r :=
  translate_append3 w.length w r (Nat.le_refl _) hm

/-! ### Lemmas about slicing and windows -/

theorem pyIndex_le (n : Nat) (i : Int) : pyIndex n i ≤ n := by
  unfold pyIndex
  split <;> omega

theorem pySlice_length (s : List Char) (i j : Int) :
    (pySlice s i j).length = pyIndex s.length j - pyIndex s.length i := by
  have h := pyIndex_le s.length j
  simp only [pySlice, List.length_drop, List.length_take]
  omega

theorem left_window_length_le (seq : List Char) (mid_nt : Nat) :
    (left_window seq mid_nt).length ≤ nt_each_side := by
  rw [left_window, pySlice_length]
  unfold pyIndex nt_each_side aa_each_side
  split <;> split <;> omega

theorem right_window_length_le (seq : List Char) (mid_nt : Nat) (shift : Int) :
    (right_window seq mid_nt shift).length ≤ nt_each_side := by
  rw [right_window, pySlice_length]
  unfold pyIndex nt_each_side aa_each_side
  split <;> split <;> omega

theorem chimeric_concat_length_le (seq : List Char) (mid_nt : Nat) (shift : Int) :
    (chimeric_concat seq mid_nt shift).length ≤ aa_each_side * 2 := by
  have hl := left_window_length_le seq mid_nt
  have hr := right_window_length_le seq mid_nt shift
  simp only [chimeric_concat, List.length_append, translate_length]
  unfold nt_each_side aa_each_side at *
  omega

/-- A successful `get_chimeric_peptide` means the untruncated concatenation
already has length exactly `2 * aa_each_side`, contains no stop symbol, and
is returned as is. -/
theorem get_some_spec (seq : List Char) (mid_nt : Nat) (shift : Int)
    (p : List Char) (h : get_chimeric_peptide seq mid_nt shift = some p) :
    (chimeric_concat seq mid_nt shift).length = aa_each_side * 2 ∧
    '*' ∉ chimeric_concat seq mid_nt shift ∧
    p = chimeric_concat seq mid_nt shift := by
  by_cases h1 : (chimeric_concat seq mid_nt shift).length < aa_each_side * 2
  · rw [get_chimeric_peptide, if_pos h1] at h
    exact absurd h (by simp)
  · by_cases h2 : '*' ∈ chimeric_concat seq mid_nt shift
    · rw [get_chimeric_peptide, if_neg h1, if_pos h2] at h
      exact absurd h (by simp)
    · rw [get_chimeric_peptide, if_neg h1, if_neg h2] at h
      have hle := chimeric_concat_length_le seq mid_nt shift
      have hlen : (chimeric_concat seq mid_nt shift).length = aa_each_side * 2 := by
        omega
      refine ⟨hlen, h2, ?_⟩
      injection h with h
      rw [← h, List.take_of_length_le (by omega)]

/-- A successful peptide has length exactly `2 * aa_each_side`. -/
theorem get_some_length (seq : List Char) (mid_nt : Nat) (shift : Int)
    (p : List Char) (h : get_chimeric_peptide seq mid_nt shift = some p) :
    p.length = aa_each_side * 2 := by
  obtain ⟨hlen, _, hp⟩ := get_some_spec seq mid_nt shift p h
  rw [hp, hlen]

/-! ### Lemmas about the five-shift loop -/

theorem collect_shifts_success (seq : List Char) (mid_nt : Nat) :
    ∀ (L : List (String × Int)) (acc : List (String × List Char)),
      (collect_shifts seq mid_nt L acc).2 = true →
      (collect_shifts seq mid_nt L acc).1
        = acc ++ L.map
            (fun ls => (ls.1, (get_chimeric_peptide seq mid_nt ls.2).getD [])) ∧
      ∀ ls ∈ L, (get_chimeric_peptide seq mid_nt ls.2).isSome := by
  intro L
  induction L with
  | nil =>
    intro acc h
    simp [collect_shifts]
  | cons hd tl ih =>
    intro acc h
    obtain ⟨label, shift⟩ := hd
    cases hg : get_chimeric_peptide seq mid_nt shift with
    | none =>
      simp only [collect_shifts, hg] at h
      exact absurd h (by simp)
    | some p =>
      simp only [collect_shifts, hg] at h ⊢
      by_cases hp : p.isEmpty
      · rw [if_pos hp] at h
        exact absurd h (by simp)
      · rw [if_neg hp] at h ⊢
        obtain ⟨h1, h2⟩ := ih (acc ++ [(label, p)]) h
        constructor
        · rw [h1]
          simp [hg]
        · intro ls hls
          rcases List.mem_cons.mp hls with rfl | htl
          · rw [hg]; rfl
          · exact h2 ls htl

theorem collect_shifts_fail (seq : List Char) (mid_nt : Nat) :
    ∀ (L : List (String × Int)) (acc : List (String × List Char)),
      (∃ ls ∈ L, get_chimeric_peptide seq mid_nt ls.2 = none) →
      (collect_shifts seq mid_nt L acc).2 = false := by
  intro L
  induction L with
  | nil =>
    rintro acc ⟨ls, hmem, hnone⟩
    exact absurd hmem (by simp)
  | cons hd tl ih =>
    rintro acc ⟨ls, hmem, hnone⟩
    obtain ⟨label, shift⟩ := hd
    cases hg : get_chimeric_peptide seq mid_nt shift with
    | none => simp [collect_shifts, hg]
    | some p =>
      simp only [collect_shifts, hg]
      by_cases hp : p.isEmpty
      · rw [if_pos hp]
      · rw [if_neg hp]
        apply ih
        rcases List.mem_cons.mp hmem with rfl | htl
        · rw [hnone] at hg
          exact absurd hg (by simp)
        · exact ⟨ls, htl, hnone⟩

theorem translate_transcript_some_iff (seq : List Char)
    (ps : List (String × List Char)) :
    translate_transcript seq = some ps ↔
      ((collect_shifts seq (seq.length / 2) shifts []).2 = true ∧
       (collect_shifts seq (seq.length / 2) shifts []).1.length = 5 ∧
       ps = (collect_shifts seq (seq.length / 2) shifts []).1) := by
  constructor
  · intro h
    rw [translate_transcript] at h
    split at h
    · next hc =>
      obtain ⟨h1, h2⟩ := hc
      injection h with h
      exact ⟨h1, h2, h.symm⟩
    · exact absurd h (by simp)
  · rintro ⟨h1, h2, rfl⟩
    rw [translate_transcript, if_pos ⟨h1, h2⟩]

theorem translate_transcript_none_of_invalid (seq : List Char)
    (h : (collect_shifts seq (seq.length / 2) shifts []).2 = false) :
    translate_transcript seq = none := by
  rw [translate_transcript, if_neg]
  rintro ⟨h1, _⟩
  rw [h] at h1
  exact absurd h1 (by simp)

theorem get_none_of_concat_short (seq : List Char) (mid_nt : Nat) (shift : Int)
    (h : (chimeric_concat seq mid_nt shift).length < aa_each_side * 2) :
    get_chimeric_peptide seq mid_nt shift = none := by
  rw [get_chimeric_peptide, if_pos h]

theorem concat_short_of_short_seq (seq : List Char) (shift : Int)
    (h : seq.length < 36) :
    (chimeric_concat seq (seq.length / 2) shift).length < aa_each_side * 2 := by
  have hr := right_window_length_le seq (seq.length / 2) shift
  have hl : (left_window seq (seq.length / 2)).length ≤ 17 := by
    rw [left_window, pySlice_length]
    unfold pyIndex nt_each_side aa_each_side
    split <;> split <;> omega
  simp only [chimeric_concat, List.length_append, translate_length]
  simp only [nt_each_side, aa_each_side] at hr ⊢
  omega

/-! ### Witness inputs -/

/-- A 108-nt poly-A transcript: every window translates to lysines only. -/
def polyA108 : List Char := List.replicate 108 'A'

/-- The 12-lysine peptide produced from `polyA108` at every shift. -/
def pepK12 : List Char := List.replicate 12 'K'

/-- The five-record result for `polyA108`. -/
def polyA_result : List (String × List Char) :=
  [("0_frame", pepK12), ("+1_frame", pepK12), ("+2_frame", pepK12),
   ("-1_frame", pepK12), ("-2_frame", pepK12)]

/-- A 108-nt sequence that is poly-A except for a T at index 70: the codon at
positions 70-72 reads TAA (stop) and is read only by the +1-frame window. -/
def seqStop71 : List Char := List.replicate 70 'A' ++ 'T' :: List.replicate 37 'A'

/-- A 20-nt transcript, shorter than `2 * nt_each_side = 36`. -/
def shortSeq20 : List Char := List.replicate 20 'A'

/-! ### Claims -/

/-- C1: for every transcript, the orchestration yields either exactly 5
labeled peptides, each of length exactly `2 * aa_each_side` (= 12), or no
result at all; a partial result of 1-4 peptides is never emitted. -/
theorem C1_all_or_nothing (seq : List Char) (ps : List (String × List Char))
    (h : translate_transcript seq = some ps) :
    ps.length = 5 ∧ ∀ lp ∈ ps, lp.2.length = 2 * aa_each_side := by
  obtain ⟨h1, h2, rfl⟩ := (translate_transcript_some_iff seq ps).mp h
  refine ⟨h2, ?_⟩
  obtain ⟨hshape, hsome⟩ := collect_shifts_success seq (seq.length / 2) shifts [] h1
  intro lp hlp
  rw [hshape] at hlp
  simp only [List.nil_append] at hlp
  obtain ⟨ls, hls, rfl⟩ := List.mem_map.mp hlp
  obtain ⟨p, hp⟩ := Option.isSome_iff_exists.mp (hsome ls hls)
  simp only [hp, Option.getD_some]
  rw [get_some_length seq (seq.length / 2) ls.2 p hp, Nat.mul_comm]

/-- Witness for C1: the poly-A transcript is accepted with five 12-residue
peptides. -/
theorem C1_witness :
    translate_transcript polyA108 = some polyA_result ∧
    (polyA_result.length = 5 ∧ ∀ lp ∈ polyA_result, lp.2.length = 2 * aa_each_side) :=
  ⟨by decide, C1_all_or_nothing polyA108 polyA_result (by decide)⟩

/-- C2: `get_chimeric_peptide` returns an absent result if and only if the
concatenated left+right amino-acid string has length below `2 * aa_each_side`
or contains the stop symbol anywhere; the embedding is total, so invalidity
is never signalled by an error. -/
theorem C2_none_iff (seq : List Char) (mid_nt : Nat) (shift : Int) :
    get_chimeric_peptide seq mid_nt shift = none ↔
      ((chimeric_concat seq mid_nt shift).length < 2 * aa_each_side ∨
       '*' ∈ chimeric_concat seq mid_nt shift) := by
  rw [get_chimeric_peptide]
  by_cases h1 : (chimeric_concat seq mid_nt shift).length < aa_each_side * 2
  · rw [if_pos h1]
    simp only [true_iff]
    exact Or.inl (by omega)
  · rw [if_neg h1]
    by_cases h2 : '*' ∈ chimeric_concat seq mid_nt shift
    · rw [if_pos h2]
      simp [h2]
    · rw [if_neg h2]
      constructor
      · intro hh
        exact absurd hh (by simp)
      · intro hh
        rcases hh with hh | hh
        · exact absurd hh (by omega)
        · exact absurd hh h2

/-- C5: if any one of the five shifts produces an invalid peptide then no
peptide at all is emitted for that transcript. -/
theorem C5_short_circuit (seq : List Char)
    (h : ∃ ls ∈ shifts, get_chimeric_peptide seq (seq.length / 2) ls.2 = none) :
    translate_transcript seq = none :=
  translate_transcript_none_of_invalid seq
    (collect_shifts_fail seq (seq.length / 2) shifts [] h)

/-- Witness for C5: a stop codon read only by the +1-frame window rejects the
whole transcript although the 0-frame shift alone would have succeeded. -/
theorem C5_witness :
    get_chimeric_peptide seqStop71 54 0 = some (List.replicate 11 'K' ++ ['I']) ∧
    get_chimeric_peptide seqStop71 54 1 = none ∧
    translate_transcript seqStop71 = none :=
  ⟨by decide, by decide,
   C5_short_circuit seqStop71 ⟨("+1_frame", 1), by decide, by decide⟩⟩

/-- C6: a transcript shorter than 36 nucleotides fails every one of the five
shifts, so it is skipped and emits nothing. -/
theorem C6_short_rejected (seq : List Char) (h : seq.length < 36) :
    (∀ ls ∈ shifts, get_chimeric_peptide seq (seq.length / 2) ls.2 = none) ∧
    translate_transcript seq = none := by
  constructor
  · intro ls _
    exact get_none_of_concat_short _ _ _ (concat_short_of_short_seq seq ls.2 h)
  · exact translate_transcript_none_of_invalid seq
      (collect_shifts_fail seq (seq.length / 2) shifts []
        ⟨("0_frame", 0), by simp [shifts],
         get_none_of_concat_short _ _ _ (concat_short_of_short_seq seq 0 h)⟩)

/-- Witness for C6: the 20-nt transcript is rejected at every shift. -/
theorem C6_witness :
    shortSeq20.length < 36 ∧
    ((∀ ls ∈ shifts, get_chimeric_peptide shortSeq20 (shortSeq20.length / 2) ls.2 = none) ∧
     translate_transcript shortSeq20 = none) :=
  ⟨by decide, C6_short_rejected shortSeq20 (by decide)⟩

/-- C9: the defensive final truncation is a no-op — whenever a peptide is
returned, the untruncated concatenation already has length exactly
`2 * aa_each_side` and is returned unchanged. -/
theorem C9_truncation_noop (seq : List Char) (mid_nt : Nat) (shift : Int)
    (p : List Char) (h : get_chimeric_peptide seq mid_nt shift = some p) :
    (chimeric_concat seq mid_nt shift).length = 2 * aa_each_side ∧
    p = chimeric_concat seq mid_nt shift := by
  obtain ⟨h1, _, h3⟩ := get_some_spec seq mid_nt shift p h
  exact ⟨by omega, h3⟩

/-- Witness for C9 at the poly-A transcript, 0-frame shift. -/
theorem C9_witness :
    get_chimeric_peptide polyA108 54 0 = some pepK12 ∧
    ((chimeric_concat polyA108 54 0).length = 2 * aa_each_side ∧
     pepK12 = chimeric_concat polyA108 54 0) :=
  ⟨by decide, C9_truncation_noop polyA108 54 0 pepK12 (by decide)⟩

theorem take_clamp (s : List Char) (a : Nat) : s.take (min a s.length) = s.take a := by
  rcases Nat.le_total a s.length with h | h
  · rw [Nat.min_eq_left h]
  · rw [Nat.min_eq_right h, List.take_length, List.take_of_length_le h]

theorem drop_clamp (s : List Char) (a n : Nat) (h : s.length ≤ n) :
    s.drop (min a n) = s.drop a := by
  rcases Nat.le_total a n with h1 | h1
  · rw [Nat.min_eq_left h1]
  · rw [Nat.min_eq_right h1, List.drop_eq_nil_of_le h,
        List.drop_eq_nil_of_le (le_trans h h1)]

/-- C3 (amended): the left window always equals the spec's reading, and the
right window equals the truncation of the requested range whenever the slice
start `mid + shift` is non-negative. (When `mid + shift < 0` — only possible
for sequences of length at most 3 — Python's negative-index wrapping moves
the slice start to the tail of the sequence instead.) -/
theorem C3_windows (seq : List Char) (mid_nt : Nat) (shift : Int)
    (h : 0 ≤ (mid_nt : Int) + shift) :
    left_window seq mid_nt = spec_left_window seq mid_nt ∧
    right_window seq mid_nt shift = spec_right_window seq mid_nt shift := by
  constructor
  · rw [left_window, spec_left_window, pySlice]
    have e1 : pyIndex seq.length ((mid_nt : Int)) = min mid_nt seq.length := by
      unfold pyIndex
      split <;> omega
    have e2 : pyIndex seq.length (max ((mid_nt : Int) - nt_each_side) 0)
        = min (mid_nt - nt_each_side) seq.length := by
      unfold pyIndex
      split <;> omega
    rw [e1, e2, take_clamp, drop_clamp]
    simp [List.length_take]
  · rw [right_window, spec_right_window, pySlice]
    have e1 : pyIndex seq.length ((mid_nt : Int) + shift + nt_each_side)
        = min ((mid_nt : Int) + shift + nt_each_side).toNat seq.length := by
      unfold pyIndex
      split <;> omega
    have e2 : pyIndex seq.length ((mid_nt : Int) + shift)
        = min ((mid_nt : Int) + shift).toNat seq.length := by
      unfold pyIndex
      split <;> omega
    rw [e1, e2, take_clamp, drop_clamp]
    simp [List.length_take]

/-- Counterexample to C3 as stated: for the 2-nt sequence AA (midpoint 1) at
shift -2 the slice start is -1, and Python's negative-index wrapping makes the
right window the final character rather than the truncation of the requested
range. -/
theorem C3_counterexample :
    ¬ (left_window ['A', 'A'] 1 = spec_left_window ['A', 'A'] 1 ∧
       right_window ['A', 'A'] 1 (-2) = spec_right_window ['A', 'A'] 1 (-2)) := by
  decide

/-- Witness for C3 (amended) at a 4-nt sequence with shift -2. -/
theorem C3_witness :
    (0 ≤ ((2 : Nat) : Int) + (-2)) ∧
    (left_window ['A', 'A', 'A', 'A'] 2 = spec_left_window ['A', 'A', 'A', 'A'] 2 ∧
     right_window ['A', 'A', 'A', 'A'] 2 (-2)
       = spec_right_window ['A', 'A', 'A', 'A'] 2 (-2)) :=
  ⟨by decide, C3_windows ['A', 'A', 'A', 'A'] 2 (-2) (by decide)⟩

/-- C4: translation maps complete codons left-to-right via the standard
genetic code, silently drops trailing leftover bases, keeps an internal stop
codon as the stop symbol in the output, and maps the empty window to the
empty string. -/
theorem C4_translation (w r : List Char) (a b c : Char)
    (_hw : ∀ x ∈ w, x ∈ dnaBases) (_hr : ∀ x ∈ r, x ∈ dnaBases)
    (_ha : a ∈ dnaBases) (_hb : b ∈ dnaBases) (_hc : c ∈ dnaBases) :
    translate [] = [] ∧
    translate (a :: b :: c :: w) = codonChar a b c :: translate w ∧
    (translate w).length = w.length / 3 ∧
    (w.length % 3 = 0 → r.length < 3 → translate (w ++ r) = translate w) ∧
    (w.length % 3 = 0 →
      translate (w ++ 'T' :: 'A' :: 'A' :: r) = translate w ++ '*' :: translate r) ∧
    codonChar 'T' 'A' 'A' = '*' ∧ codonChar 'T' 'A' 'G' = '*' ∧
    codonChar 'T' 'G' 'A' = '*' := by
  refine ⟨rfl, translate_cons3 a b c w, translate_length w, ?_, ?_, rfl, rfl, rfl⟩
  · intro hm hr3
    rw [translate_append w r hm, translate_short r hr3, List.append_nil]
  · intro hm
    rw [translate_append w _ hm, translate_cons3]
    norm_num
    decide

/-- Witness for C4 on the window AAA with trailing TT. -/
theorem C4_witness :
    (∀ x ∈ (['A', 'A', 'A'] : List Char), x ∈ dnaBases) ∧
    (∀ x ∈ (['T', 'T'] : List Char), x ∈ dnaBases) ∧
    'T' ∈ dnaBases ∧ 'A' ∈ dnaBases ∧ 'G' ∈ dnaBases ∧
    (translate [] = [] ∧
     translate ('T' :: 'A' :: 'G' :: ['A', 'A', 'A'])
       = codonChar 'T' 'A' 'G' :: translate ['A', 'A', 'A'] ∧
     (translate ['A', 'A', 'A']).length = (['A', 'A', 'A'] : List Char).length / 3 ∧
     ((['A', 'A', 'A'] : List Char).length % 3 = 0 →
       (['T', 'T'] : List Char).length < 3 →
       translate (['A', 'A', 'A'] ++ ['T', 'T']) = translate ['A', 'A', 'A']) ∧
     ((['A', 'A', 'A'] : List Char).length % 3 = 0 →
       translate (['A', 'A', 'A'] ++ 'T' :: 'A' :: 'A' :: ['T', 'T'])
         = translate ['A', 'A', 'A'] ++ '*' :: translate ['T', 'T']) ∧
     codonChar 'T' 'A' 'A' = '*' ∧ codonChar 'T' 'A' 'G' = '*' ∧
     codonChar 'T' 'G' 'A' = '*') :=
  ⟨by decide, by decide, by decide, by decide, by decide,
   C4_translation ['A', 'A', 'A'] ['T', 'T'] 'T' 'A' 'G'
     (by decide) (by decide) (by decide) (by decide) (by decide)⟩

/-- C7: every accepted transcript yields exactly five records, in the fixed
shift order, and each renders as a header line followed by the peptide line. -/
theorem C7_record_format (seq : List Char) (ps : List (String × List Char))
    (h : translate_transcript seq = some ps) :
    ∃ p0 p1 p2 p3 p4 : List Char,
      get_chimeric_peptide seq (seq.length / 2) 0 = some p0 ∧
      get_chimeric_peptide seq (seq.length / 2) 1 = some p1 ∧
      get_chimeric_peptide seq (seq.length / 2) 2 = some p2 ∧
      get_chimeric_peptide seq (seq.length / 2) (-1) = some p3 ∧
      get_chimeric_peptide seq (seq.length / 2) (-2) = some p4 ∧
      ps = [("0_frame", p0), ("+1_frame", p1), ("+2_frame", p2),
            ("-1_frame", p3), ("-2_frame", p4)] ∧
      ∀ id : String,
        ps.map (fun lp => render_record id lp.1 lp.2)
          = [render_record id "0_frame" p0, render_record id "+1_frame" p1,
             render_record id "+2_frame" p2, render_record id "-1_frame" p3,
             render_record id "-2_frame" p4] := by
  obtain ⟨h1, h2, rfl⟩ := (translate_transcript_some_iff seq ps).mp h
  obtain ⟨hshape, hsome⟩ := collect_shifts_success seq (seq.length / 2) shifts [] h1
  obtain ⟨p0, hp0⟩ :=
    Option.isSome_iff_exists.mp (hsome ("0_frame", 0) (by simp [shifts]))
  obtain ⟨p1, hp1⟩ :=
    Option.isSome_iff_exists.mp (hsome ("+1_frame", 1) (by simp [shifts]))
  obtain ⟨p2, hp2⟩ :=
    Option.isSome_iff_exists.mp (hsome ("+2_frame", 2) (by simp [shifts]))
  obtain ⟨p3, hp3⟩ :=
    Option.isSome_iff_exists.mp (hsome ("-1_frame", -1) (by simp [shifts]))
  obtain ⟨p4, hp4⟩ :=
    Option.isSome_iff_exists.mp (hsome ("-2_frame", -2) (by simp [shifts]))
  refine ⟨p0, p1, p2, p3, p4, hp0, hp1, hp2, hp3, hp4, ?_, ?_⟩
  · rw [hshape]
    simp [shifts, hp0, hp1, hp2, hp3, hp4]
  · intro id
    rw [hshape]
    simp [shifts, hp0, hp1, hp2, hp3, hp4]

/-- Witness for C7: the poly-A transcript's five records. -/
theorem C7_witness :
    translate_transcript polyA108 = some polyA_result ∧
    (∃ p0 p1 p2 p3 p4 : List Char,
      get_chimeric_peptide polyA108 (polyA108.length / 2) 0 = some p0 ∧
      get_chimeric_peptide polyA108 (polyA108.length / 2) 1 = some p1 ∧
      get_chimeric_peptide polyA108 (polyA108.length / 2) 2 = some p2 ∧
      get_chimeric_peptide polyA108 (polyA108.length / 2) (-1) = some p3 ∧
      get_chimeric_peptide polyA108 (polyA108.length / 2) (-2) = some p4 ∧
      polyA_result = [("0_frame", p0), ("+1_frame", p1), ("+2_frame", p2),
                      ("-1_frame", p3), ("-2_frame", p4)] ∧
      ∀ id : String,
        polyA_result.map (fun lp => render_record id lp.1 lp.2)
          = [render_record id "0_frame" p0, render_record id "+1_frame" p1,
             render_record id "+2_frame" p2, render_record id "-1_frame" p3,
             render_record id "-2_frame" p4]) :=
  ⟨by decide, C7_record_format polyA108 polyA_result (by decide)⟩

/-- C10: every peptide of an accepted transcript starts with the same
`aa_each_side` residues — the translation of the shift-independent left
window. -/
theorem C10_shared_left_half (seq : List Char) (ps : List (String × List Char))
    (h : translate_transcript seq = some ps) :
    ∀ lp ∈ ps, lp.2.take aa_each_side
      = translate (left_window seq (seq.length / 2)) := by
  obtain ⟨h1, h2, rfl⟩ := (translate_transcript_some_iff seq ps).mp h
  obtain ⟨hshape, hsome⟩ := collect_shifts_success seq (seq.length / 2) shifts [] h1
  intro lp hlp
  rw [hshape] at hlp
  simp only [List.nil_append] at hlp
  obtain ⟨ls, hls, rfl⟩ := List.mem_map.mp hlp
  obtain ⟨p, hp⟩ := Option.isSome_iff_exists.mp (hsome ls hls)
  simp only [hp, Option.getD_some]
  obtain ⟨hlen, _, hpeq⟩ := get_some_spec seq (seq.length / 2) ls.2 p hp
  rw [hpeq, chimeric_concat]
  have hLlen : (translate (left_window seq (seq.length / 2))).length
      = aa_each_side := by
    have hL := left_window_length_le seq (seq.length / 2)
    have hR := right_window_length_le seq (seq.length / 2) ls.2
    rw [chimeric_concat, List.length_append, translate_length, translate_length]
      at hlen
    rw [translate_length]
    simp only [nt_each_side, aa_each_side] at *
    omega
  rw [← hLlen, List.take_left]

/-- Witness for C10: all five poly-A peptides share their first six
residues. -/
theorem C10_witness :
    translate_transcript polyA108 = some polyA_result ∧
    ∀ lp ∈ polyA_result, lp.2.take aa_each_side
      = translate (left_window polyA108 (polyA108.length / 2)) :=
  ⟨by decide, C10_shared_left_half polyA108 polyA_result (by decide)⟩

/-! ### Lemmas about the per-file loop -/

theorem process_records_count_le :
    ∀ (records : List (String × List Char)) (maxT count : Nat) (out : List String),
      count ≤ maxT → (process_records records maxT count out).1 ≤ maxT := by
  intro records
  induction records with
  | nil =>
    intro maxT count out h
    exact h
  | cons hd tl ih =>
    intro maxT count out h
    obtain ⟨id, seq⟩ := hd
    by_cases hc : count ≥ maxT
    · simp only [process_records, if_pos hc]
      exact h
    · simp only [process_records, if_neg hc]
      cases ht : translate_transcript seq with
      | some ps =>
        simp only [ht]
        exact ih maxT (count + 1) _ (by omega)
      | none =>
        simp only [ht]
        exact ih maxT count out h

theorem process_records_out_length :
    ∀ (records : List (String × List Char)) (maxT count : Nat) (out : List String),
      out.length = 5 * count →
      (process_records records maxT count out).2.length
        = 5 * (process_records records maxT count out).1 := by
  intro records
  induction records with
  | nil =>
    intro maxT count out h
    exact h
  | cons hd tl ih =>
    intro maxT count out h
    obtain ⟨id, seq⟩ := hd
    by_cases hc : count ≥ maxT
    · simp only [process_records, if_pos hc]
      exact h
    · simp only [process_records, if_neg hc]
      cases ht : translate_transcript seq with
      | some ps =>
        simp only [ht]
        apply ih
        obtain ⟨_, h2, hps⟩ := (translate_transcript_some_iff seq ps).mp ht
        have : ps.length = 5 := by rw [hps]; exact h2
        simp [List.length_append, this, h]
        omega
      | none =>
        simp only [ht]
        exact ih maxT count out h

/-- C8: the number of accepted transcripts never exceeds the cap, the number
of emitted records is five per accepted transcript, and once the cap is
reached no further record is processed. -/
theorem C8_transcript_cap (records : List (String × List Char)) (maxT : Nat) :
    (translate_chimeric_peptides records maxT).1 ≤ maxT ∧
    (translate_chimeric_peptides records maxT).2.length
      = 5 * (translate_chimeric_peptides records maxT).1 ∧
    ∀ (r : String × List Char) (rest : List (String × List Char))
      (count : Nat) (out : List String), count ≥ maxT →
      process_records (r :: rest) maxT count out = (count, out) := by
  refine ⟨process_records_count_le records maxT 0 [] (Nat.zero_le _),
          process_records_out_length records maxT 0 [] rfl, ?_⟩
  rintro ⟨id, seq⟩ rest count out hge
  simp only [process_records, if_pos hge]

/-- Witness for C8 with a zero cap: nothing is ever accepted. -/
theorem C8_witness :
    (translate_chimeric_peptides [("t", polyA108)] 0).1 ≤ 0 ∧
    process_records [("t", polyA108)] 0 0 [] = (0, []) :=
  ⟨(C8_transcript_cap [("t", polyA108)] 0).1,
   (C8_transcript_cap [("t", polyA108)] 0).2.2 ("t", polyA108) [] 0 []
     (Nat.le_refl 0)⟩

end ChimSource
